import Mathlib

/-!
Shallow embedding of the header-chain manager in `core/headerchain.go`
(package `core` of the repository), together with theorems settling the
specification claims about it.

Modelling conventions:
* `common.Hash` values are abstracted as `Nat`; `0` plays the role of the
  zero hash `common.Hash{}` (returned by `rawdb.ReadCanonicalHash` when no
  entry exists).
* Block numbers are `uint64` in Go; they are modelled as `Nat`, with the
  one place where unsigned wraparound matters (`Number64() - 1` applied to
  a genesis-height header during a backward walk) made explicit via
  `pred64`.
* Per-context vector fields of a header (`ParentHash[ctx]`, `Number[ctx]`,
  `Location`) are modelled by the scalar value selected by the node's
  operating context `types.QuaiNetworkContext`, which the source treats as
  a process-wide constant.
* The persistent database (`hc.headerDb` plus the `rawdb` accessors) is the
  `ChainState` record: the header table, the canonical number-to-hash
  table, the head-block-hash cell and the total-difficulty table.  The
  read-through LRU caches of the source are transparent (they never change
  a read's result, only its cost) and are not modelled.
* External collaborators are modelled by their observable effect:
  `engine.VerifyHeader`/`bc.Appendable` by the boolean `appendableOk`,
  `bc.Append` by the boolean `bodyOk` plus the `bodies` list, the
  `chainFeed.Send` notification by the `events` list, `bc.Trim` by removing
  the trimmed block from `bodies`.
* Go `for {}` loops without a structural decrease are given an explicit
  fuel parameter; running out of fuel is reported as a distinguished
  outcome, never silently conflated with a result the Go code can produce.
* Dereferencing a `nil` header pointer (which the Go code can do in
  several of the walks) is modelled as the `panicked` outcome, carrying
  the state of the durable store at the moment of the panic.
-/

namespace Quai

/-- `common.Hash`, abstracted; `0` is the zero hash `common.Hash{}`. -/
abbrev Hash := Nat

/-- `2^64 - 1`, the value of `uint64(0) - 1` in Go. -/
def uint64Max : Nat := 2 ^ 64 - 1

/-- Go's `n - 1` on `uint64`: wraps to `2^64 - 1` at zero. -/
def pred64 (n : Nat) : Nat := if n = 0 then uint64Max else n - 1

/-- A block header, restricted to the fields the header chain reads:
its content hash (`Hash()`), its parent hash in the operating context
(`Parent()` / `ParentHash[types.QuaiNetworkContext]`), its block number in
the operating context (`Number64()`), and its shard location (`Location`). -/
structure Header where
  hash : Hash
  parent : Hash
  number : Nat
  location : List Nat
deriving DecidableEq, Repr

/-- Look a header up in the durable header table by hash and number
(`rawdb.ReadHeader` reads the record keyed by both). -/
def findHeader (store : List Header) (h : Hash) (n : Nat) : Option Header :=
  store.find? (fun hd => hd.hash == h && hd.number == n)

/-- The durable and in-memory state of a `HeaderChain`:
the header table, the canonical number-to-hash table (`0` = no entry),
the head-block-hash cell, the total-difficulty table, the atomically
stored current header and its cached hash, the heads registry, and the
observable effects on the chain-body collaborator (`bodies`) and the
event feed (`events`).  `genesisHash0` is `config.GenesisHashes[0]` and
`genesisHashCtx` is `config.GenesisHashes[types.QuaiNetworkContext]`
(the source indexes the table both ways). -/
structure ChainState where
  store : List Header
  canonical : Nat → Hash
  headBlockHash : Hash
  tds : List ((Hash × Nat) × List Int)
  current : Header
  currentHash : Hash
  heads : List Header
  bodies : List Hash
  events : List Hash
  genesisHash0 : Hash
  genesisHashCtx : Hash

/-- `hc.GetHeader(hash, number)` (cache tier elided). -/
def getHeader (st : ChainState) (h : Hash) (n : Nat) : Option Header :=
  findHeader st.store h n

/-- `rawdb.ReadHeaderNumber` / `hc.GetBlockNumber`: the hash-to-number
table, maintained alongside the header table. -/
def getBlockNumber (st : ChainState) (h : Hash) : Option Nat :=
  (st.store.find? (fun hd => hd.hash == h)).map (·.number)

/-- `hc.GetHeaderByHash`: number lookup followed by header lookup. -/
def getHeaderByHash (st : ChainState) (h : Hash) : Option Header :=
  match getBlockNumber st h with
  | none => none
  | some n => getHeader st h n

/-- `rawdb.WriteHeader`: put the header record (overwriting any record
with the same key). -/
def writeHeader (st : ChainState) (h : Header) : ChainState :=
  { st with store :=
      h :: st.store.filter (fun x => !(x.hash == h.hash && x.number == h.number)) }

/-- `rawdb.DeleteHeader`: remove the header record keyed by hash and
number. -/
def deleteHeader (st : ChainState) (h : Hash) (n : Nat) : ChainState :=
  { st with store := st.store.filter (fun x => !(x.hash == h && x.number == n)) }

/-- `rawdb.WriteCanonicalHash`. -/
def writeCanonical (st : ChainState) (h : Hash) (n : Nat) : ChainState :=
  { st with canonical := fun m => if m = n then h else st.canonical m }

/-- `rawdb.DeleteCanonicalHash`: after deletion a read returns the zero
hash. -/
def deleteCanonical (st : ChainState) (n : Nat) : ChainState :=
  { st with canonical := fun m => if m = n then 0 else st.canonical m }

/-! ## Ancestor / query engine -/

/-- The `for ancestor != 0` loop of `hc.GetAncestor`.  Each iteration
either short-circuits through the canonical mapping (the source reads
`ReadCanonicalHash(number)` and compares it with `hash` twice in a row
with no intervening write; the two reads are identical, so only one
comparison is modelled) or consumes one unit of the caller-supplied
non-canonical-step budget and steps to the parent. -/
def getAncestorLoop (st : ChainState) (h : Hash) (number : Nat) :
    (ancestor : Nat) → (budget : Nat) → Hash × Nat
  | 0, _ => (h, number)
  | a + 1, budget =>
    if st.canonical number = h then
      (st.canonical (number - (a + 1)), number - (a + 1))
    else if budget = 0 then (0, 0)
    else
      match getHeader st h number with
      | none => (0, 0)
      | some hd => getAncestorLoop st hd.parent (number - 1) a (budget - 1)

/-- `hc.GetAncestor(hash, number, ancestor, maxNonCanonical)`.  The Go
budget is passed by pointer; only its effect on the walk is observable to
the claims, so it is threaded as a value. -/
def getAncestor (st : ChainState) (h : Hash) (number ancestor budget : Nat) :
    Hash × Nat :=
  if ancestor > number then (0, 0)
  else if ancestor = 1 then
    match getHeader st h number with
    | some hd => (hd.parent, number - 1)
    | none => (0, 0)
  else getAncestorLoop st h number ancestor budget

/-- Side condition for the budget clause of `GetAncestor`: mirrors the
`for ancestor != 0` walk step for step and is true exactly when the
caller-supplied non-canonical-step budget runs out at a
non-short-circuited step before the remaining distance reaches zero
(the walk's other exits — the canonical short-circuit, reaching the
target, and a missing header — make it false). -/
def budgetExhausted (st : ChainState) : Hash → Nat → Nat → Nat → Bool
  | _, _, 0, _ => false
  | h, number, a + 1, budget =>
    if st.canonical number = h then false
    else if budget = 0 then true
    else
      match getHeader st h number with
      | none => false
      | some hd => budgetExhausted st hd.parent (number - 1) a (budget - 1)

/-- `rawdb.ReadTd`: the stored total-difficulty record, a vector of
(non-nil) big integers when present. -/
def readTd (st : ChainState) (h : Hash) (n : Nat) : Option (List Int) :=
  (st.tds.find? (fun e => e.1.1 == h && e.1.2 == n)).map (·.2)

/-- `hc.GetTd(hash, number)`.  A Go `*big.Int` is modelled as
`Option Int`: `none` is a nil pointer, `some v` a pointer to the value
`v`.  When no record exists the source returns `make([]*big.Int, 3)`,
i.e. three nil pointers. -/
def getTd (st : ChainState) (h : Hash) (n : Nat) : List (Option Int) :=
  match readTd st h n with
  | none => List.replicate 3 none
  | some l => l.map some

/-- `hc.GetTdByHash(hash)`. -/
def getTdByHash (st : ChainState) (h : Hash) : List (Option Int) :=
  match getBlockNumber st h with
  | none => List.replicate 3 none
  | some n => getTd st h n

/-- `hc.GetAncestorByLocation(hash, location)`, translated as written:
the source checks `if header != nil { return nil, errors.New(...) }`, so
a *successful* lookup returns the error, and a failed lookup falls
through to `for !bytes.Equal(header.Location, location)`, which
dereferences the nil `header` (a runtime panic, modelled as the error
value `"nil dereference"`); the walk body below the check is
unreachable. -/
def getAncestorByLocation (st : ChainState) (h : Hash) (location : List Nat) :
    Except String Header :=
  match getHeaderByHash st h with
  | some _ => .error "error finding header by hash"
  | none => .error "nil dereference"

/-! ## Common-header search and branch trimming -/

/-- `hc.findCommonHeader(header)`.  The walk is fuel-indexed: the outer
`none` means the fuel ran out before the loop exited, `some none` is the
Go function returning `nil` (its argument walk hit a missing header),
`some (some c)` a found common header.  Note the genesis comparison here
uses `GenesisHashes[types.QuaiNetworkContext]`. -/
def findCommonHeader (fuel : Nat) (st : ChainState) :
    Option Header → Option (Option Header)
  | header =>
    match fuel with
    | 0 => none
    | f + 1 =>
      match header with
      | none => some none
      | some h =>
        let ch := st.canonical h.number
        if ch = h.hash ∨ ch = st.genesisHashCtx then some (getHeaderByHash st ch)
        else findCommonHeader f st (getHeader st h.parent (pred64 h.number))

/-- `hc.trim(commonHeader, startHeader)`.  Deletes each header (and asks
the chain-body collaborator to discard the block, modelled by removing it
from `bodies`) walking from `startHeader` until `commonHeader` is reached
by hash, stopping early with a logged warning if a parent is missing.
The Go function returns a nil error on both exits; the `Bool` is `true`
when the loop exited on its own and `false` when the fuel ran out. -/
def trim (fuel : Nat) (st : ChainState) (common parent : Header) :
    ChainState × Bool :=
  match fuel with
  | 0 => (st, false)
  | f + 1 =>
    if parent.hash = common.hash then (st, true)
    else
      let st1 := deleteHeader st parent.hash parent.number
      let st2 := { st1 with bodies := st1.bodies.filter (fun b => b != parent.hash) }
      match getHeader st2 parent.parent (pred64 parent.number) with
      | none => (st2, true)
      | some p => trim f st2 common p

/-! ## Appender and heads registry -/

/-- Modelled from the spec: the heads-registry capacity constant
`maxHeadsQueueLimit` is referenced by `Append` but declared outside the
given source file; the spec fixes no numeric value, only that it is a
fixed positive bound, so an arbitrary concrete one is used. -/
def maxHeadsQueueLimit : Nat := 10

/-- One insertion step of a sort of the heads slice by ascending block
number (the source runs `sort.Slice` over the whole slice with the
comparator `Number[ctx] <`; an insertion sort realises the same
specification, the sorted permutation, tie order being unspecified by
`sort.Slice`). -/
def insertByNumber (h : Header) : List Header → List Header
  | [] => [h]
  | x :: xs => if h.number ≤ x.number then h :: x :: xs else x :: insertByNumber h xs

/-- The `sort.Slice(hc.heads, ...)` call at the end of `Append`. -/
def sortHeads : List Header → List Header
  | [] => []
  | x :: xs => insertByNumber x (sortHeads xs)

/-- The errors `Append` can surface. -/
inductive AppendError
  | notAppendable
  | bodyError
  | nilHead
deriving DecidableEq, Repr

/-- The outcome of an `Append` call: the resulting durable and in-memory
state plus the returned error, if any. -/
structure AppendResult where
  state : ChainState
  error : Option AppendError

/-- The successful prefix of `Append`, up to the garbage-collection
section: the header is persisted, the chain-body collaborator appends the
body, and the chain-event notification is emitted. -/
def afterBody (st : ChainState) (block : Header) : ChainState :=
  let st1 := writeHeader st block
  { st1 with
    bodies := block.hash :: st1.bodies
    events := block.hash :: st1.events }

/-- `hc.Append(block)`.  `appendableOk` is the verdict of the external
validators (`engine.VerifyHeader` and `bc.Appendable`); `bodyOk` is
whether the chain-body collaborator's `bc.Append` succeeds.  The result
is `none` when the fuel for the eviction walk runs out. -/
def append (fuel : Nat) (st : ChainState) (block : Header)
    (appendableOk bodyOk : Bool) : Option AppendResult :=
  if appendableOk = false then some ⟨st, some .notAppendable⟩
  else
    let st1 := writeHeader st block
    if bodyOk = false then
      some ⟨deleteHeader st1 block.hash block.number, some .bodyError⟩
    else
      let st2 := afterBody st block
      if st2.heads.length = maxHeadsQueueLimit then
        match st2.heads.head? with
        | none => none
        | some h0 =>
          match findCommonHeader fuel st2 (some h0) with
          | none => none
          | some none => some ⟨st2, some .nilHead⟩
          | some (some common) =>
            match trim fuel st2 common h0 with
            | (_, false) => none
            | (st3, true) =>
              let st4 := { st3 with heads := st3.heads.tail }
              some ⟨{ st4 with heads := sortHeads (st4.heads ++ [block]) }, none⟩
      else
        some ⟨{ st2 with heads := sortHeads (st2.heads ++ [block]) }, none⟩

/-! ## Chain selector (`SetCurrentHeader`) -/

/-- How a `SetCurrentHeader` walk ended: normally, by dereferencing a nil
header pointer (a Go runtime panic; the durable writes made before it
persist), or by exhausting the model's fuel. -/
inductive Outcome
  | ok
  | panicked
  | fuelOut
deriving DecidableEq, Repr

/-- The result of `SetCurrentHeader`: the state and how the call ended.
The returned per-location `sliceHeaders` array only reports rollback /
rollforward boundaries to the caller and touches no chain state; it is
not modelled. -/
structure SetResult where
  state : ChainState
  outcome : Outcome

/-- The first inner loop of the reorg walk (taken when the old-head walk
reached the common header first): walk `newHeader` down, pushing each
*parent* onto the hash stack, until the common header or a header with
hash `GenesisHashes[0]` is pushed.  The source appends the parent before
checking it, so the entry value of `newHeader` itself is never pushed; a
missing parent is appended as nil and the immediately following
`newHeader.Hash()` panics. -/
def collectLoop (fuel : Nat) (st : ChainState) (common : Header) :
    Option Header → List Header → List Header × Outcome
  | newH, stack =>
    match fuel with
    | 0 => (stack, .fuelOut)
    | f + 1 =>
      match newH with
      | none => (stack, .panicked)
      | some nh =>
        if nh.hash = common.hash then (stack, .ok)
        else
          match getHeader st nh.parent (pred64 nh.number) with
          | none => (stack, .panicked)
          | some nh' =>
            if nh'.hash = st.genesisHash0 then (stack ++ [nh'], .ok)
            else collectLoop f st common (some nh') (stack ++ [nh'])

/-- The second inner loop of the reorg walk (taken when the new-head walk
reached the common header first): keep deleting the canonical entry at
the old-branch walker's number and stepping to its parent, until the
walker is the common header or carries `GenesisHashes[0]`. -/
def deleteLoop (fuel : Nat) (st : ChainState) (common : Header) :
    Option Header → ChainState × Outcome
  | prevH =>
    match fuel with
    | 0 => (st, .fuelOut)
    | f + 1 =>
      match prevH with
      | none => (st, .panicked)
      | some p =>
        if p.hash = common.hash then (st, .ok)
        else
          let st1 := deleteCanonical st p.number
          match getHeader st1 p.parent (pred64 p.number) with
          | none => (st1, .panicked)
          | some p' =>
            if p'.hash = st1.genesisHash0 then (st1, .ok)
            else deleteLoop f st1 common (some p')

/-- The outer loop of the reorg walk in `SetCurrentHeader`: per
iteration, if the old-branch walker is at the common header the remaining
new-branch path is collected (`collectLoop`); otherwise its canonical
entry is deleted and it steps down; if the new-branch walker is at the
common header the remaining old entries are deleted (`deleteLoop`);
otherwise the new-branch walker is pushed and steps down, and the
iteration ends early with a normal break if the (already moved)
old-branch walker carries `GenesisHashes[0]`. -/
def reorgLoop (fuel : Nat) (st : ChainState) (common : Header) :
    Option Header → Option Header → List Header →
    ChainState × List Header × Outcome
  | prevH, newH, stack =>
    match fuel with
    | 0 => (st, stack, .fuelOut)
    | f + 1 =>
      match prevH with
      | none => (st, stack, .panicked)
      | some p =>
        if p.hash = common.hash then
          let r := collectLoop f st common newH stack
          (st, r.1, r.2)
        else
          let st1 := deleteCanonical st p.number
          let prev' := getHeader st1 p.parent (pred64 p.number)
          match newH with
          | none => (st1, stack, .panicked)
          | some nh =>
            if nh.hash = common.hash then
              let r := deleteLoop f st1 common prev'
              (r.1, stack, r.2)
            else
              let stack1 := stack ++ [nh]
              let newH' := getHeader st1 nh.parent (pred64 nh.number)
              match prev' with
              | none => (st1, stack1, .panicked)
              | some p' =>
                if p'.hash = st1.genesisHash0 then (st1, stack1, .ok)
                else reorgLoop f st1 common (some p') newH' stack1

/-- The final loop of `SetCurrentHeader`: write canonical entries for the
hash stack from its last element back to its first. -/
def replay (st : ChainState) (stack : List Header) : ChainState :=
  stack.foldr (fun h s => writeCanonical s h.hash h.number) st

/-- `hc.SetCurrentHeader(head)`.  The current-header cell, its cached
hash and the head-block-hash record are updated first; then either the
fast-forward path extends the canonical mapping by one entry, or the
reorg walk runs.  A `findCommonHeader` result of `nil` makes the first
`commonHeader.Hash()` call of the walk panic before any deletion. -/
def setCurrentHeader (fuel : Nat) (st : ChainState) (head : Header) : SetResult :=
  let prev := st.current
  let st1 := { st with
    current := head
    currentHash := head.hash
    headBlockHash := head.hash }
  if prev.hash = head.parent then
    ⟨writeCanonical st1 head.hash head.number, .ok⟩
  else
    match findCommonHeader fuel st1 (some head) with
    | none => ⟨st1, .fuelOut⟩
    | some none => ⟨st1, .panicked⟩
    | some (some common) =>
      match reorgLoop fuel st1 common (some prev) (some head) [] with
      | (st2, stack, .ok) => ⟨replay st2 stack, .ok⟩
      | (st2, _, o) => ⟨st2, o⟩

/-! ## Specification-side definitions

These do not translate source code; they state, in the spec's own words,
properties the claim theorems compare against the source translation. -/

/-- The ancestor chain of a header: the header itself followed by the
headers reached by repeated parent lookups (fuel-bounded). -/
def ancestorChain (fuel : Nat) (st : ChainState) (h : Header) : List Header :=
  match fuel with
  | 0 => [h]
  | f + 1 =>
    h :: (match getHeader st h.parent (pred64 h.number) with
      | none => []
      | some p => ancestorChain f st p)

/-- Modelled from the spec claim's wording for C5: "the common ancestor
between that oldest head and the just-inserted head" — the first header
on `a`'s ancestor chain that also lies on `b`'s ancestor chain. -/
def specCommonAncestorWithHead (fuel : Nat) (st : ChainState) (a b : Header) :
    Option Header :=
  let bChain := (ancestorChain fuel st b).map (·.hash)
  (ancestorChain fuel st a).find? (fun h => bChain.contains h.hash)

/-- The heads registry sorted by ascending block number in the operating
context. -/
def sortedByNumber (l : List Header) : Prop :=
  l.Pairwise (fun a b => a.number ≤ b.number)

/-- Side condition for the reorg walk of `SetCurrentHeader`: walking the
old-branch pointer down from `p`, the walk reaches the common header, a
missing parent, or a `GenesisHashes[0]`-hashed header before it ever
stands on a height-0 header that would have its canonical entry deleted.
This holds on every well-formed chain, where the only height-0 header is
the genesis header. -/
def prevWalkSafe (fuel : Nat) (store : List Header) (gen0 : Hash)
    (common : Header) (p : Header) : Bool :=
  match fuel with
  | 0 => true
  | f + 1 =>
    if p.hash = common.hash then true
    else if p.hash = gen0 then false
    else
      p.number != 0 &&
        match findHeader store p.parent (pred64 p.number) with
        | none => true
        | some p' => prevWalkSafe f store gen0 common p'

/-- Side condition for `trim`: walking from `start`, the supplied common
header is reached (or the walk dies on a missing parent) before any
header whose hash is the genesis hash would be deleted.  It holds at both
call sites of `trim` in the source, which pass a common header found on
that very walk, or the genesis header itself. -/
def trimSafe (fuel : Nat) (store : List Header) (gen : Hash)
    (common start : Header) : Bool :=
  match fuel with
  | 0 => true
  | f + 1 =>
    if start.hash = common.hash then true
    else if start.hash = gen then false
    else
      match findHeader (store.filter
          (fun x => !(x.hash == start.hash && x.number == start.number)))
          start.parent (pred64 start.number) with
      | none => true
      | some p => trimSafe f (store.filter
          (fun x => !(x.hash == start.hash && x.number == start.number))) gen common p

/-! ## Concrete fixtures

A small family of headers used by the closed counterexample and witness
theorems.  Hash `9` is the genesis hash in both contexts. -/

/-- Genesis header (height 0, hash 9). -/
def hG : Header := ⟨9, 0, 0, [1, 1]⟩

/-- Canonical-branch headers. -/
def hA1 : Header := ⟨11, 9, 1, [1, 1]⟩

def hA2 : Header := ⟨12, 11, 2, [1, 1]⟩

def hA3 : Header := ⟨13, 12, 3, [1, 1]⟩

/-- Side-branch headers off genesis. -/
def hB1 : Header := ⟨21, 9, 1, [1, 1]⟩

def hB2 : Header := ⟨22, 21, 2, [1, 1]⟩

/-- A head whose parent is `hB1`, sibling of `hB2`. -/
def hC1 : Header := ⟨31, 21, 2, [1, 1]⟩

/-- A filler registry head, far from the canonical chain. -/
def hD : Header := ⟨90, 89, 9, [1, 1]⟩

/-- A header unrelated to any chain, used as a bogus common-header
argument. -/
def hX : Header := ⟨77, 76, 5, [1, 1]⟩

/-- A registry head whose parent header is missing from the store. -/
def hE : Header := ⟨50, 49, 5, [1, 1]⟩

/-- Turn an association list into a canonical-mapping function. -/
def canonOf (l : List (Nat × Hash)) : Nat → Hash :=
  fun n => (((l.find? (fun e => e.1 == n)).map (·.2)).getD 0)

/-- A state whose canonical chain is `hG → hA1` with current head `hA1`,
and whose store also holds the side branch `hG → hB1 → hB2`. -/
def stBase : ChainState :=
  { store := [hG, hA1, hB1, hB2]
    canonical := canonOf [(0, 9), (1, 11)]
    headBlockHash := 11
    tds := []
    current := hA1
    currentHash := 11
    heads := []
    bodies := [9, 11]
    events := []
    genesisHash0 := 9
    genesisHashCtx := 9 }

/-- A store holding only the genesis header and `hB1`, used to exercise
`trim` with a common-header argument that is on neither ancestry. -/
def stT : ChainState :=
  { stBase with store := [hG, hB1] }

/-- A state whose canonical chain is `hG → hA1 → hA2` (current head
`hA2`), whose store also holds the side branch `hG → hB1 → hB2`, and
whose heads registry is at capacity with `hB2` as its oldest entry. -/
def stC5 : ChainState :=
  { stBase with
    store := [hG, hA1, hA2, hB1, hB2]
    canonical := canonOf [(0, 9), (1, 11), (2, 12)]
    current := hA2
    currentHash := 12
    heads := [hB2, hD, hD, hD, hD, hD, hD, hD, hD, hD]
    bodies := [9, 11, 12] }

/-- Like `stC5`, but the oldest registry entry is `hE`, whose parent
header is missing from the store, so the eviction-time common-header
search dies. -/
def stC10 : ChainState :=
  { stC5 with heads := [hE, hD, hD, hD, hD, hD, hD, hD, hD, hD] }

/-! ## Helper lemmas about the store primitives -/

theorem find?_filter_of_imp {α : Type} (l : List α) (p q : α → Bool)
    (h : ∀ x, p x = true → q x = true) :
    (l.filter q).find? p = l.find? p := by
  induction l with
  | nil => rfl
  | cons x xs ih =>
    by_cases hq : q x = true
    · by_cases hp : p x = true
      · rw [List.filter_cons_of_pos hq, List.find?_cons_of_pos _ hp,
          List.find?_cons_of_pos _ hp]
      · rw [List.filter_cons_of_pos hq, List.find?_cons_of_neg _ hp,
          List.find?_cons_of_neg _ hp, ih]
    · have hp : ¬p x = true := fun hpx => hq (h x hpx)
      rw [List.filter_cons_of_neg hq, List.find?_cons_of_neg _ hp, ih]

theorem getHeader_deleteHeader_self (st : ChainState) (h : Hash) (n : Nat) :
    getHeader (deleteHeader st h n) h n = none := by
  apply List.find?_eq_none.mpr
  intro x hx
  have := (List.mem_filter.mp hx).2
  simp only [Bool.not_eq_true'] at this
  simp [this]

theorem getHeader_deleteHeader_other (st : ChainState) (h n h' n')
    (hne : ¬(h' = h ∧ n' = n)) :
    getHeader (deleteHeader st h n) h' n' = getHeader st h' n' := by
  apply find?_filter_of_imp
  intro x hx
  simp only [Bool.and_eq_true, beq_iff_eq] at hx
  simp only [Bool.not_eq_true', Bool.and_eq_false_iff, beq_eq_false_iff_ne, ne_eq]
  by_cases hh : x.hash = h
  · right
    intro hn
    exact hne ⟨hx.1 ▸ hh, hx.2 ▸ hn⟩
  · left
    exact hh

theorem getHeader_writeHeader_other (st : ChainState) (block : Header) (h' n')
    (hne : ¬(h' = block.hash ∧ n' = block.number)) :
    getHeader (writeHeader st block) h' n' = getHeader st h' n' := by
  have h1 : getHeader (writeHeader st block) h' n'
      = List.find? (fun hd => hd.hash == h' && hd.number == n')
          (block :: st.store.filter
            (fun x => !(x.hash == block.hash && x.number == block.number))) := rfl
  rw [h1, List.find?_cons_of_neg]
  · exact getHeader_deleteHeader_other st block.hash block.number h' n' hne
  · simp only [Bool.and_eq_true, beq_iff_eq, not_and]
    intro h1 h2
    exact hne ⟨h1.symm, h2.symm⟩

theorem mem_insertByNumber (h x : Header) (l : List Header)
    (hx : x ∈ insertByNumber h l) : x = h ∨ x ∈ l := by
  induction l with
  | nil => simpa [insertByNumber] using hx
  | cons a t ih =>
    simp only [insertByNumber] at hx
    split at hx
    · simpa using hx
    · rcases List.mem_cons.mp hx with h1 | h1
      · exact Or.inr (h1 ▸ List.mem_cons_self a t)
      · rcases ih h1 with h2 | h2
        · exact Or.inl h2
        · exact Or.inr (List.mem_cons_of_mem a h2)

theorem insertByNumber_sorted (h : Header) (l : List Header)
    (hs : sortedByNumber l) : sortedByNumber (insertByNumber h l) := by
  induction l with
  | nil => simp [insertByNumber, sortedByNumber]
  | cons a t ih =>
    rcases List.pairwise_cons.mp hs with ⟨hha, hta⟩
    simp only [insertByNumber]
    split
    · refine List.pairwise_cons.mpr ⟨?_, hs⟩
      intro b hb
      rcases List.mem_cons.mp hb with rfl | hbt
      · assumption
      · exact le_trans (by assumption) (hha b hbt)
    · refine List.pairwise_cons.mpr ⟨?_, ih hta⟩
      intro b hb
      rcases mem_insertByNumber h b t hb with rfl | hbt
      · omega
      · exact hha b hbt

theorem sortHeads_sorted (l : List Header) : sortedByNumber (sortHeads l) := by
  induction l with
  | nil => exact List.Pairwise.nil
  | cons a t ih => exact insertByNumber_sorted a (sortHeads t) ih

theorem insertByNumber_length (h : Header) (l : List Header) :
    (insertByNumber h l).length = l.length + 1 := by
  induction l with
  | nil => rfl
  | cons a t ih =>
    simp only [insertByNumber]
    split
    · rfl
    · simp [ih]

theorem sortHeads_length (l : List Header) : (sortHeads l).length = l.length := by
  induction l with
  | nil => rfl
  | cons a t ih => simp [sortHeads, insertByNumber_length, ih]

theorem trim_heads (fuel : Nat) (st : ChainState) (common parent : Header) :
    ((trim fuel st common parent).1).heads = st.heads := by
  induction fuel generalizing st parent with
  | zero => rfl
  | succ f ih =>
    simp only [trim]
    split
    · rfl
    · split
      · rfl
      · exact ih _ _

theorem trim_canonical (fuel : Nat) (st : ChainState) (common parent : Header) :
    ((trim fuel st common parent).1).canonical = st.canonical := by
  induction fuel generalizing st parent with
  | zero => rfl
  | succ f ih =>
    simp only [trim]
    split
    · rfl
    · split
      · rfl
      · exact ih _ _

theorem deleteLoop_store (f : Nat) (st : ChainState) (c : Header) (q : Option Header) :
    ((deleteLoop f st c q).1).store = st.store := by
  induction f generalizing st q with
  | zero => rfl
  | succ f ih =>
    simp only [deleteLoop]
    split
    · rfl
    · split
      · rfl
      · split
        · rfl
        · split
          · rfl
          · exact ih _ _

theorem reorgLoop_store (f : Nat) (st : ChainState) (c : Header)
    (p n : Option Header) (s : List Header) :
    ((reorgLoop f st c p n s).1).store = st.store := by
  induction f generalizing st p n s with
  | zero => rfl
  | succ f ih =>
    simp only [reorgLoop]
    split
    · rfl
    · split
      · rfl
      · split
        · rfl
        · split
          · exact deleteLoop_store _ _ _ _
          · split
            · rfl
            · split
              · rfl
              · exact ih _ _ _ _

theorem replay_store (stack : List Header) (st : ChainState) :
    (replay st stack).store = st.store := by
  induction stack with
  | nil => rfl
  | cons h t ih => simpa [replay, writeCanonical] using ih

theorem setCurrentHeader_store (fuel : Nat) (st : ChainState) (head : Header) :
    (setCurrentHeader fuel st head).state.store = st.store := by
  unfold setCurrentHeader
  dsimp only []
  split
  · rfl
  · split
    · rfl
    · rfl
    · rename_i common heq
      rcases hres : reorgLoop fuel { st with
          current := head
          currentHash := head.hash
          headBlockHash := head.hash } common (some st.current) (some head) []
        with ⟨st2, stack, o⟩
      have h2 : st2.store = st.store := by
        have h1 := congrArg (fun p => p.1.store) hres
        simpa [reorgLoop_store] using h1.symm
      cases o
      · simpa [replay_store] using h2
      · exact h2
      · exact h2

theorem deleteLoop_canonical_zero (f : Nat) (st : ChainState) (c : Header)
    (q : Option Header)
    (hs : ∀ p, q = some p → prevWalkSafe f st.store st.genesisHash0 c p = true) :
    ((deleteLoop f st c q).1).canonical 0 = st.canonical 0 := by
  induction f generalizing st q with
  | zero => rfl
  | succ f ih =>
    match q with
    | none => rfl
    | some p =>
      have hp := hs p rfl
      simp only [deleteLoop]
      split
      · rfl
      · rename_i hc
        simp only [prevWalkSafe, if_neg hc] at hp
        by_cases hg : p.hash = st.genesisHash0
        · rw [if_pos hg] at hp
          cases hp
        · rw [if_neg hg] at hp
          simp only [Bool.and_eq_true] at hp
          rcases hp with ⟨hn, hrest⟩
          have hn' : p.number ≠ 0 := by simpa using hn
          have hcan : (deleteCanonical st p.number).canonical 0 = st.canonical 0 := by
            simp only [deleteCanonical]
            rw [if_neg (fun h => hn' h.symm)]
          split
          · exact hcan
          · rename_i p' hfind
            have hfind' : findHeader st.store p.parent (pred64 p.number) = some p' := hfind
            simp only [hfind'] at hrest
            split
            · exact hcan
            · rw [ih (deleteCanonical st p.number) (some p')
                (fun x hx => by cases hx; exact hrest)]
              exact hcan

theorem reorgLoop_canonical_zero (f : Nat) (st : ChainState) (c : Header)
    (p : Header) (newH : Option Header) (stack : List Header)
    (hs : prevWalkSafe f st.store st.genesisHash0 c p = true) :
    ((reorgLoop f st c (some p) newH stack).1).canonical 0 = st.canonical 0 := by
  induction f generalizing st p newH stack with
  | zero => rfl
  | succ f ih =>
    simp only [reorgLoop]
    split
    · rfl
    · rename_i hc
      simp only [prevWalkSafe, if_neg hc] at hs
      by_cases hg : p.hash = st.genesisHash0
      · rw [if_pos hg] at hs
        cases hs
      · rw [if_neg hg] at hs
        simp only [Bool.and_eq_true] at hs
        rcases hs with ⟨hn, hrest⟩
        have hn' : p.number ≠ 0 := by simpa using hn
        have hcan : (deleteCanonical st p.number).canonical 0 = st.canonical 0 := by
          simp only [deleteCanonical]
          rw [if_neg (fun h => hn' h.symm)]
        split
        · exact hcan
        · rename_i nh
          split
          · have hdl := deleteLoop_canonical_zero f (deleteCanonical st p.number) c
              (getHeader (deleteCanonical st p.number) p.parent (pred64 p.number))
              (fun x hx => by
                have hx' : findHeader st.store p.parent (pred64 p.number) = some x := hx
                simp only [hx'] at hrest
                exact hrest)
            exact hdl.trans hcan
          · split
            · exact hcan
            · rename_i p' hfind
              have hfind' : findHeader st.store p.parent (pred64 p.number) = some p' := hfind
              simp only [hfind'] at hrest
              split
              · exact hcan
              · exact (ih (deleteCanonical st p.number) p' _ _ hrest).trans hcan

theorem collectLoop_stack_mem (f : Nat) (st : ChainState) (c : Header)
    (newH : Option Header) (stack : List Header) (P : Header → Prop)
    (hstack : ∀ h ∈ stack, P h) (hstore : ∀ h ∈ st.store, P h) :
    ∀ h ∈ (collectLoop f st c newH stack).1, P h := by
  induction f generalizing newH stack with
  | zero => exact hstack
  | succ f ih =>
    match newH with
    | none => exact hstack
    | some nh =>
      simp only [collectLoop]
      split
      · exact hstack
      · split
        · exact hstack
        · rename_i nh' hfind
          have hm : nh' ∈ st.store := List.mem_of_find?_eq_some hfind
          have hstack' : ∀ h ∈ stack ++ [nh'], P h := by
            intro h hh
            rcases List.mem_append.mp hh with h1 | h1
            · exact hstack h h1
            · rw [List.mem_singleton.mp h1]
              exact hstore nh' hm
          split
          · exact hstack'
          · exact ih _ _ hstack'

theorem reorgLoop_stack_mem (f : Nat) (st : ChainState) (c : Header)
    (prevH newH : Option Header) (stack : List Header) (P : Header → Prop)
    (hstack : ∀ h ∈ stack, P h)
    (hnew : ∀ h, newH = some h → P h)
    (hstore : ∀ h ∈ st.store, P h) :
    ∀ h ∈ (reorgLoop f st c prevH newH stack).2.1, P h := by
  induction f generalizing st prevH newH stack with
  | zero => exact hstack
  | succ f ih =>
    match prevH with
    | none => exact hstack
    | some p =>
      simp only [reorgLoop]
      split
      · exact collectLoop_stack_mem f st c newH stack P hstack hstore
      · split
        · exact hstack
        · rename_i nh
          split
          · exact hstack
          · have hstack' : ∀ h ∈ stack ++ [nh], P h := by
              intro h hh
              rcases List.mem_append.mp hh with h1 | h1
              · exact hstack h h1
              · rw [List.mem_singleton.mp h1]
                exact hnew nh rfl
            split
            · exact hstack'
            · rename_i p' hfind
              split
              · exact hstack'
              · refine ih (deleteCanonical st p.number) (some p') _ _ hstack'
                  (fun h hh => hstore h (List.mem_of_find?_eq_some hh)) hstore

theorem replay_canonical_zero (stack : List Header) (st : ChainState)
    (hm : ∀ h ∈ stack, h.number = 0 → h.hash = st.canonical 0) :
    (replay st stack).canonical 0 = st.canonical 0 := by
  induction stack with
  | nil => rfl
  | cons h t ih =>
    have ht := ih (fun x hx h0 => hm x (List.mem_cons_of_mem h hx) h0)
    show (writeCanonical (replay st t) h.hash h.number).canonical 0 = st.canonical 0
    simp only [writeCanonical]
    by_cases h0 : (0 : Nat) = h.number
    · rw [if_pos h0]
      exact hm h (List.mem_cons_self h t) h0.symm
    · rw [if_neg h0]
      exact ht

theorem findCommonHeader_setCurrent (fuel : Nat) (st : ChainState) (head : Header)
    (x : Option Header) :
    findCommonHeader fuel { st with
      current := head
      currentHash := head.hash
      headBlockHash := head.hash } x = findCommonHeader fuel st x := by
  induction fuel generalizing x with
  | zero => rfl
  | succ f ih =>
    match x with
    | none => rfl
    | some h =>
      simp only [findCommonHeader]
      split
      · rfl
      · exact ih _

theorem trim_preserves_protected (fuel : Nat) (st : ChainState) (common start : Header)
    (g : Hash) (hs : trimSafe fuel st.store g common start = true) :
    ∀ hd ∈ st.store, hd.hash = g → hd ∈ ((trim fuel st common start).1).store := by
  induction fuel generalizing st start with
  | zero => exact fun hd h1 _ => h1
  | succ f ih =>
    intro hd h1 h2
    simp only [trim]
    split
    · exact h1
    · rename_i hc
      simp only [trimSafe, if_neg hc] at hs
      by_cases hg : start.hash = g
      · rw [if_pos hg] at hs
        cases hs
      · rw [if_neg hg] at hs
        have hmem : hd ∈ st.store.filter
            (fun x => !(x.hash == start.hash && x.number == start.number)) := by
          refine List.mem_filter.mpr ⟨h1, ?_⟩
          simp only [Bool.not_eq_true', Bool.and_eq_false_iff, beq_eq_false_iff_ne, ne_eq]
          left
          rw [h2]
          exact fun e => hg e.symm
        split
        · exact hmem
        · rename_i p hfind
          have hfind' : findHeader (st.store.filter
              (fun x => !(x.hash == start.hash && x.number == start.number)))
              start.parent (pred64 start.number) = some p := hfind
          simp only [hfind'] at hs
          exact ih _ p hs hd hmem h2

theorem getAncestorLoop_budget (st : ChainState) :
    ∀ (a : Nat) (h : Hash) (number budget : Nat),
      budgetExhausted st h number a budget = true →
      getAncestorLoop st h number a budget = (0, 0) := by
  intro a
  induction a with
  | zero =>
    intro h number budget hex
    cases hex
  | succ a ih =>
    intro h number budget hex
    simp only [budgetExhausted] at hex
    simp only [getAncestorLoop]
    by_cases hc : st.canonical number = h
    · rw [if_pos hc] at hex
      cases hex
    · rw [if_neg hc] at hex
      rw [if_neg hc]
      by_cases hb : budget = 0
      · rw [if_pos hb]
      · rw [if_neg hb] at hex
        rw [if_neg hb]
        cases hfind : getHeader st h number with
        | none => rfl
        | some hd =>
          simp only [hfind] at hex
          exact ih hd.parent (number - 1) (budget - 1) hex

/-! ## Claim theorems -/

/-- C2: on the fast-forward path (`newHead.parent == currentHead.hash`),
`SetCurrentHeader` writes exactly one canonical-mapping entry — the new
head's number mapped to its hash — leaves every other canonical-mapping
entry unchanged, and updates the current-header pointer and cached
current-header hash to the new head. -/
theorem setCurrentHeader_fast_forward (fuel : Nat) (st : ChainState) (head : Header)
    (h : st.current.hash = head.parent) :
    (setCurrentHeader fuel st head).state.canonical head.number = head.hash ∧
    (∀ n, n ≠ head.number →
      (setCurrentHeader fuel st head).state.canonical n = st.canonical n) ∧
    (setCurrentHeader fuel st head).state.current = head ∧
    (setCurrentHeader fuel st head).state.currentHash = head.hash ∧
    (setCurrentHeader fuel st head).outcome = .ok := by
  have e : setCurrentHeader fuel st head
      = ⟨writeCanonical { st with
          current := head
          currentHash := head.hash
          headBlockHash := head.hash } head.hash head.number, .ok⟩ := by
    simp only [setCurrentHeader]
    rw [if_pos h]
  rw [e]
  exact ⟨by simp [writeCanonical], fun n hn => by simp [writeCanonical, hn],
    rfl, rfl, rfl⟩

/-- Witness for C2 at a concrete input: extending `stBase` (current head
`hA1`) by its child `hA2`. -/
theorem setCurrentHeader_fast_forward_witness :
    stBase.current.hash = hA2.parent ∧
    (setCurrentHeader 5 stBase hA2).state.canonical 2 = hA2.hash ∧
    (setCurrentHeader 5 stBase hA2).state.canonical 1 = stBase.canonical 1 ∧
    (setCurrentHeader 5 stBase hA2).state.current = hA2 := by
  have h := setCurrentHeader_fast_forward 5 stBase hA2 (by decide)
  exact ⟨by decide, h.1, h.2.1 1 (by decide), h.2.2.1⟩

/-- C6: when the chain-body collaborator's append fails after the header
was persisted, `Append` deletes the just-written header before returning
the error: the call returns the body error, the block's header record is
absent from the store afterwards, every other header record is untouched,
and the heads registry, bodies, events and canonical mapping are
unchanged. -/
theorem append_body_failure_rollback (fuel : Nat) (st : ChainState) (block : Header) :
    (append fuel st block true false).map (·.error) = some (some .bodyError) ∧
    (append fuel st block true false).map
      (fun r => getHeader r.state block.hash block.number) = some none ∧
    (∀ h n, ¬(h = block.hash ∧ n = block.number) →
      (append fuel st block true false).map (fun r => getHeader r.state h n) =
        some (getHeader st h n)) ∧
    (append fuel st block true false).map (fun r => r.state.heads) = some st.heads ∧
    (append fuel st block true false).map (fun r => r.state.bodies) = some st.bodies ∧
    (append fuel st block true false).map (fun r => r.state.events) = some st.events := by
  refine ⟨rfl, ?_, ?_, rfl, rfl, rfl⟩
  · show some (getHeader (deleteHeader (writeHeader st block) block.hash block.number)
      block.hash block.number) = some none
    rw [getHeader_deleteHeader_self]
  · intro h n hne
    show some (getHeader (deleteHeader (writeHeader st block) block.hash block.number)
      h n) = some (getHeader st h n)
    rw [getHeader_deleteHeader_other _ _ _ _ _ hne, getHeader_writeHeader_other _ _ _ _ hne]

/-- Witness for C6 at a concrete input: appending `hC1` to `stBase` with
a failing body append; the frame part is instantiated at the record of
`hA1`. -/
theorem append_body_failure_rollback_witness :
    ¬((11 : Hash) = hC1.hash ∧ (1 : Nat) = hC1.number) ∧
    (append 5 stBase hC1 true false).map
      (fun r => getHeader r.state hC1.hash hC1.number) = some none ∧
    (append 5 stBase hC1 true false).map (fun r => getHeader r.state 11 1) =
      some (getHeader stBase 11 1) := by
  have h := append_body_failure_rollback 5 stBase hC1
  exact ⟨by decide, h.2.1, h.2.2.1 11 1 (by decide)⟩

/-- C7: `GetAncestor` at distance 0 is the identity; at distance 1 (with
the header present and the distance within range) it returns the parent
hash paired with the decremented number; it returns the zero hash and 0
when the distance exceeds the number, and likewise whenever the
non-canonical-step budget is exhausted at a non-short-circuited step
before the target distance is reached (`budgetExhausted`), whether the
budget is already zero at entry or runs out in the middle of the walk
(the distance-1 special case reads the parent directly and never
consults the budget). -/
theorem getAncestor_contract (st : ChainState) (h : Hash) (number budget : Nat) :
    getAncestor st h number 0 budget = (h, number) ∧
    (∀ hd, 1 ≤ number → getHeader st h number = some hd →
      getAncestor st h number 1 budget = (hd.parent, number - 1)) ∧
    (∀ a, number < a → getAncestor st h number a budget = (0, 0)) ∧
    (∀ a, 2 ≤ a → a ≤ number → budget = 0 → ¬st.canonical number = h →
      getAncestor st h number a budget = (0, 0)) ∧
    (∀ a b, a ≠ 1 → budgetExhausted st h number a b = true →
      getAncestor st h number a b = (0, 0)) := by
  have hgen : ∀ a b, a ≠ 1 → budgetExhausted st h number a b = true →
      getAncestor st h number a b = (0, 0) := by
    intro a b ha hex
    by_cases han : number < a
    · simp [getAncestor, han]
    · simp only [getAncestor, gt_iff_lt, if_neg han, if_neg ha]
      exact getAncestorLoop_budget st a h number b hex
  refine ⟨?_, ?_, ?_, ?_, hgen⟩
  · simp [getAncestor, getAncestorLoop]
  · intro hd h1 hfind
    simp [getAncestor, Nat.not_lt.mpr h1, hfind]
  · intro a ha
    simp [getAncestor, ha]
  · intro a ha2 hale hb hcan
    refine hgen a budget (by omega) ?_
    obtain ⟨a', rfl⟩ : ∃ a', a = a' + 1 := ⟨a - 1, by omega⟩
    simp [budgetExhausted, hcan, hb]

/-- Witness for C7 at concrete inputs over `stBase`: the last two
conjuncts exercise the budget clause at entry-time exhaustion
(`budget = 0`) and at mid-walk exhaustion (`budget = 1`, consumed at the
first non-canonical step and exhausted at the second). -/
theorem getAncestor_contract_witness :
    getAncestor stBase 11 1 0 5 = (11, 1) ∧
    getAncestor stBase 11 1 1 5 = (9, 0) ∧
    getAncestor stBase 22 2 5 5 = (0, 0) ∧
    getAncestor stBase 22 2 2 0 = (0, 0) ∧
    budgetExhausted stBase 22 2 2 1 = true ∧
    getAncestor stBase 22 2 2 1 = (0, 0) := by
  refine ⟨(getAncestor_contract stBase 11 1 5).1, ?_, ?_, ?_, by decide, ?_⟩
  · exact (getAncestor_contract stBase 11 1 5).2.1 hA1 (by decide) (by decide)
  · exact (getAncestor_contract stBase 22 2 5).2.2.1 5 (by decide)
  · exact (getAncestor_contract stBase 22 2 0).2.2.2.1 2 (by decide) (by decide) rfl (by decide)
  · exact (getAncestor_contract stBase 22 2 1).2.2.2.2 2 1 (by decide) (by decide)

/-- C8, counterexample: at a state with no total-difficulty record for
hash 5 at number 1, `GetTd` returns a vector of three nil pointers, not a
vector whose every entry is a zero-valued difficulty: the claim that
callers can read any entry of the result is false — every entry is nil. -/
theorem getTd_nil_entries_counterexample :
    readTd stBase 5 1 = none ∧
    getTd stBase 5 1 = [none, none, none] ∧
    ¬(∀ x ∈ getTd stBase 5 1, x = some 0) := by
  refine ⟨rfl, rfl, fun hall => ?_⟩
  have := hall none (by simp [getTd, readTd, stBase])
  exact Option.noConfusion this

/-- C8, amended: `GetTd` and `GetTdByHash` never return a nil vector;
when no record exists the result has the expected per-context length (3),
but its entries are nil difficulty pointers rather than zero values, so
callers can index into the result but cannot dereference absent
entries. -/
theorem getTd_absent_record_shape (st : ChainState) (h : Hash) (n : Nat) :
    (readTd st h n = none →
      getTd st h n = List.replicate 3 none ∧ (getTd st h n).length = 3) ∧
    (getBlockNumber st h = none → getTdByHash st h = List.replicate 3 none) ∧
    (∀ l, readTd st h n = some l → getTd st h n = l.map some) := by
  refine ⟨fun habs => ?_, fun habs => ?_, fun l hl => ?_⟩
  · simp [getTd, habs]
  · simp [getTdByHash, habs]
  · simp [getTd, hl]

/-- Witness for the amended C8 at a concrete input: `stBase` holds no
total-difficulty records and no header with hash 5. -/
theorem getTd_absent_record_shape_witness :
    getTd stBase 5 1 = List.replicate 3 none ∧
    (getTd stBase 5 1).length = 3 ∧
    getTdByHash stBase 5 = List.replicate 3 none := by
  have h := getTd_absent_record_shape stBase 5 1
  exact ⟨(h.1 (by decide)).1, (h.1 (by decide)).2, h.2.1 (by decide)⟩

/-- C9: the nil-check in `GetAncestorByLocation` is inverted, so the
function returns the error `"error finding header by hash"` precisely
when the header *is* found — here `hA1`, whose own location equals the
requested location, should be returned without error per the function's
own doc comment — and dereferences a nil header (a runtime panic) when it
is not found. -/
theorem getAncestorByLocation_inverted_nil_check :
    getHeaderByHash stBase hA1.hash = some hA1 ∧
    hA1.location = [1, 1] ∧
    getAncestorByLocation stBase hA1.hash [1, 1] =
      .error "error finding header by hash" ∧
    getAncestorByLocation stBase 5 [1, 1] = .error "nil dereference" := by
  exact ⟨by decide, rfl, rfl, rfl⟩

/-- C1: evaluating `SetCurrentHeader` at a reorganisation from head `hA1`
(canonical chain `hG → hA1`) to `hB2` (branch `hG → hB1 → hB2`, common
ancestor `hG` at height 0) shows the canonical mapping afterwards has no
entry at height 1 at all: the old entry was deleted but the new branch's
`hB1` was never written, contradicting the claim that every number in
`(H, new_head.number]` resolves to the new branch's hash. -/
theorem setCurrentHeader_reorg_gap :
    (setCurrentHeader 20 stBase hB2).outcome = .ok ∧
    (setCurrentHeader 20 stBase hB2).state.current = hB2 ∧
    (setCurrentHeader 20 stBase hB2).state.canonical 0 = hG.hash ∧
    (setCurrentHeader 20 stBase hB2).state.canonical 2 = hB2.hash ∧
    (setCurrentHeader 20 stBase hB2).state.canonical 1 = 0 ∧
    hB1.hash ≠ 0 ∧ stBase.canonical 1 = hA1.hash := by
  exact ⟨rfl, rfl, by decide, by decide, by decide, by decide, by decide⟩

/-- C10: when the eviction step of `Append` fails because
`findCommonHeader` returns nil for the oldest registered head, the error
is surfaced but nothing is rolled back: the new header stays persisted,
the body stays appended, the chain-event notification has already been
emitted, and the heads registry is left unchanged. -/
theorem append_eviction_error_preserves_append (fuel : Nat) (st : ChainState)
    (block h0 : Header)
    (hlen : st.heads.length = maxHeadsQueueLimit)
    (hh : st.heads.head? = some h0)
    (hfc : findCommonHeader fuel (afterBody st block) (some h0) = some none) :
    (append fuel st block true true).map (·.error) = some (some .nilHead) ∧
    (append fuel st block true true).map
      (fun r => getHeader r.state block.hash block.number) = some (some block) ∧
    (append fuel st block true true).map (fun r => r.state.bodies) =
      some (block.hash :: st.bodies) ∧
    (append fuel st block true true).map (fun r => r.state.events) =
      some (block.hash :: st.events) ∧
    (append fuel st block true true).map (fun r => r.state.heads) = some st.heads := by
  have happ : append fuel st block true true = some ⟨afterBody st block, some .nilHead⟩ := by
    show (if (afterBody st block).heads.length = maxHeadsQueueLimit then _ else _) = _
    rw [if_pos (show (afterBody st block).heads.length = maxHeadsQueueLimit from hlen),
      show (afterBody st block).heads.head? = some h0 from hh]
    simp only [hfc]
  rw [happ]
  refine ⟨rfl, ?_, rfl, rfl, rfl⟩
  show some (getHeader (afterBody st block) block.hash block.number) = some (some block)
  simp [afterBody, writeHeader, getHeader, findHeader]

/-- C4: starting from a registry within capacity, every successful
`Append` leaves the heads registry within `maxHeadsQueueLimit` and sorted
by ascending block number in the operating context. -/
theorem append_registry_bounded_sorted (fuel : Nat) (st : ChainState)
    (block : Header) (aOk bOk : Bool)
    (hlen : st.heads.length ≤ maxHeadsQueueLimit) :
    ∀ r, append fuel st block aOk bOk = some r → r.error = none →
      r.state.heads.length ≤ maxHeadsQueueLimit ∧ sortedByNumber r.state.heads := by
  intro r happ herr
  unfold append at happ
  split at happ
  · obtain rfl : r = _ := (Option.some.inj happ).symm
    exact Option.noConfusion herr
  · split at happ
    · obtain rfl : r = _ := (Option.some.inj happ).symm
      exact Option.noConfusion herr
    · dsimp only [] at happ
      split at happ
      case isTrue hcap =>
        split at happ
        · exact Option.noConfusion happ
        case h_2 h0 hh =>
          split at happ
          · exact Option.noConfusion happ
          · obtain rfl : r = _ := (Option.some.inj happ).symm
            exact Option.noConfusion herr
          case h_3 common hfc =>
            split at happ
            · exact Option.noConfusion happ
            case h_2 st3 htrim =>
              obtain rfl : r = _ := (Option.some.inj happ).symm
              have hst3 : st3.heads = st.heads := by
                have := congrArg (fun p => p.1.heads) htrim
                simpa [trim_heads] using this.symm
              constructor
              · have hcap' : st.heads.length = maxHeadsQueueLimit := hcap
                have h1 : 1 ≤ st.heads.length := by
                  have hh' : st.heads.head? = some h0 := hh
                  cases hs : st.heads with
                  | nil => rw [hs] at hh'; exact absurd hh' (by simp)
                  | cons a t => simp
                simp only [sortHeads_length, List.length_append, List.length_tail,
                  hst3, List.length_cons, List.length_nil]
                omega
              · exact sortHeads_sorted _
      case isFalse hcap =>
        obtain rfl : r = _ := (Option.some.inj happ).symm
        have h1 : st.heads.length ≠ maxHeadsQueueLimit := hcap
        have he : (afterBody st block).heads.length = st.heads.length := rfl
        constructor
        · simp only [sortHeads_length, List.length_append, List.length_cons,
            List.length_nil]
          omega
        · exact sortHeads_sorted _

/-- Witness for C4 at a concrete input: appending `hC1` to `stBase`
(registry empty, well within capacity). -/
theorem append_registry_bounded_sorted_witness :
    stBase.heads.length ≤ maxHeadsQueueLimit ∧
    (sortHeads (stBase.heads ++ [hC1])).length ≤ maxHeadsQueueLimit ∧
    sortedByNumber (sortHeads (stBase.heads ++ [hC1])) := by
  have h := append_registry_bounded_sorted 5 stBase hC1 true true (by decide)
    ⟨{ afterBody stBase hC1 with heads := sortHeads (stBase.heads ++ [hC1]) }, none⟩
    rfl rfl
  exact ⟨by decide, h.1, h.2⟩

/-- C5, counterexample: in `stC5` (canonical chain `hG → hA1 → hA2`,
registry at capacity, oldest head `hB2`), appending `hC1` — whose common
ancestor with `hB2` is their shared parent `hB1` — succeeds but deletes
`hB1`'s header record: the eviction trim does not stop at the common
ancestor of the oldest and inserted heads (`hB1`), because the code trims
to the common header with the canonical chain (`hG`) instead. -/
theorem append_eviction_trims_past_inserted_ancestor :
    stC5.heads.head? = some hB2 ∧
    stC5.heads.length = maxHeadsQueueLimit ∧
    specCommonAncestorWithHead 20 stC5 hB2 hC1 = some hB1 ∧
    (append 30 stC5 hC1 true true).map
      (fun r => (r.error, getHeaderByHash r.state hB1.hash)) = some (none, none) := by
  exact ⟨rfl, by decide, by decide, by decide⟩

/-- C5, amended: when the registry is at capacity, a successful `Append`
selects the oldest (lowest-number) registered head, computes its common
header against the current canonical chain via `findCommonHeader`, trims
the branch from that head back to this common header, and dequeues the
oldest entry before inserting the new head in sorted order. -/
theorem append_eviction_policy (fuel : Nat) (st : ChainState)
    (block h0 common : Header) (st3 : ChainState)
    (hsorted : sortedByNumber st.heads)
    (hlen : st.heads.length = maxHeadsQueueLimit)
    (hh : st.heads.head? = some h0)
    (hfc : findCommonHeader fuel (afterBody st block) (some h0) = some (some common))
    (htrim : trim fuel (afterBody st block) common h0 = (st3, true)) :
    (∀ h ∈ st.heads, h0.number ≤ h.number) ∧
    append fuel st block true true =
      some ⟨{ st3 with heads := sortHeads (st3.heads.tail ++ [block]) }, none⟩ := by
  constructor
  · intro h hmem
    have hh' : st.heads.head? = some h0 := hh
    cases hs : st.heads with
    | nil => rw [hs] at hmem; cases hmem
    | cons a t =>
      rw [hs] at hh' hmem hsorted
      simp only [List.head?_cons, Option.some.injEq] at hh'
      subst hh'
      rcases List.mem_cons.mp hmem with rfl | hmt
      · exact le_refl _
      · exact (List.pairwise_cons.mp hsorted).1 h hmt
  · show (if (afterBody st block).heads.length = maxHeadsQueueLimit then _ else _) = _
    rw [if_pos (show (afterBody st block).heads.length = maxHeadsQueueLimit from hlen),
      show (afterBody st block).heads.head? = some h0 from hh]
    simp only [hfc, htrim]

/-- Witness for the amended C5 at a concrete input: the eviction run of
`stC5` with `hB2` as oldest head and `hG` the computed common header. -/
theorem append_eviction_policy_witness :
    sortedByNumber stC5.heads ∧
    stC5.heads.length = maxHeadsQueueLimit ∧
    findCommonHeader 30 (afterBody stC5 hC1) (some hB2) = some (some hG) ∧
    (∀ h ∈ stC5.heads, hB2.number ≤ h.number) ∧
    append 30 stC5 hC1 true true =
      some ⟨{ (trim 30 (afterBody stC5 hC1) hG hB2).1 with
        heads := sortHeads
          ((trim 30 (afterBody stC5 hC1) hG hB2).1.heads.tail ++ [hC1]) }, none⟩ := by
  have h2 : (trim 30 (afterBody stC5 hC1) hG hB2).2 = true := by decide
  have htrim : trim 30 (afterBody stC5 hC1) hG hB2
      = ((trim 30 (afterBody stC5 hC1) hG hB2).1, true) := by
    rw [← h2]
  have hsort : sortedByNumber stC5.heads := by
    unfold sortedByNumber
    decide
  have h := append_eviction_policy 30 stC5 hC1 hB2 hG
    ((trim 30 (afterBody stC5 hC1) hG hB2).1)
    hsort (by decide) rfl (by decide) htrim
  exact ⟨hsort, by decide, by decide, h.1, h.2⟩

/-- C3, counterexample: `trim` has no genesis guard, so a trim call whose
supplied common header (`hX`) is on neither ancestry walks past and
deletes the genesis header record: in `stT` (store `[hG, hB1]`, genesis
hash 9) the call completes without error and genesis is gone. -/
theorem trim_deletes_genesis_counterexample :
    stT.genesisHash0 = hG.hash ∧
    getHeaderByHash stT hG.hash = some hG ∧
    (trim 10 stT hX hB1).2 = true ∧
    getHeaderByHash ((trim 10 stT hX hB1).1) hG.hash = none := by
  exact ⟨rfl, by decide, by decide, by decide⟩

/-- C3, amended: (i) `trim` never deletes any canonical-mapping entry
(it touches only header records and bodies); (ii) `trim` never deletes a
header carrying a protected hash — in particular the genesis header
record — provided the supplied common header is reached on the start
header's parent walk before any header carrying that hash (`trimSafe`),
as holds at both in-repo call sites, which pass a common header found on
that very walk or the genesis header itself; with a common header not on
the walk the genesis record can be deleted (see the counterexample);
(iii) `SetCurrentHeader` never deletes any header record; and (iv) a
`SetCurrentHeader` reorg never deletes the canonical-mapping entry at
height 0 provided the old head's walk reaches the computed common header,
a missing parent, or a `GenesisHashes[0]`-hashed header at positive
height before standing on a height-0 header (`prevWalkSafe`), every
stored height-0 header's hash is the canonical hash at 0, and likewise
for the new head if at height 0 — all of which hold on well-formed
chains, where the only height-0 header is the canonical genesis. -/
theorem genesis_preservation :
    (∀ (fuel : Nat) (st : ChainState) (common parent : Header),
      ((trim fuel st common parent).1).canonical = st.canonical) ∧
    (∀ (fuel : Nat) (st : ChainState) (common start : Header) (g : Hash),
      trimSafe fuel st.store g common start = true →
      ∀ hd ∈ st.store, hd.hash = g → hd ∈ ((trim fuel st common start).1).store) ∧
    (∀ (fuel : Nat) (st : ChainState) (head : Header),
      (setCurrentHeader fuel st head).state.store = st.store) ∧
    (∀ (fuel : Nat) (st : ChainState) (head : Header),
      head.parent ≠ st.current.hash →
      (∀ common, findCommonHeader fuel st (some head) = some (some common) →
        prevWalkSafe fuel st.store st.genesisHash0 common st.current = true) →
      (∀ hd ∈ st.store, hd.number = 0 → st.canonical 0 = hd.hash) →
      (head.number = 0 → st.canonical 0 = head.hash) →
      (setCurrentHeader fuel st head).state.canonical 0 = st.canonical 0) := by
  refine ⟨trim_canonical, trim_preserves_protected, setCurrentHeader_store, ?_⟩
  intro fuel st head hfast hsafe h1 h2
  unfold setCurrentHeader
  dsimp only []
  rw [if_neg (fun e => hfast e.symm)]
  split
  · rfl
  · rfl
  · rename_i common hfc
    rw [findCommonHeader_setCurrent] at hfc
    have hsafe' := hsafe common hfc
    rcases hres : reorgLoop fuel { st with
        current := head
        currentHash := head.hash
        headBlockHash := head.hash } common (some st.current) (some head) []
      with ⟨st2, stack, o⟩
    have hc2 : st2.canonical 0 = st.canonical 0 := by
      have ha : st2.canonical 0
          = ((reorgLoop fuel { st with
              current := head
              currentHash := head.hash
              headBlockHash := head.hash } common (some st.current) (some head) []).1).canonical 0 := by
        rw [hres]
      rw [ha]
      exact reorgLoop_canonical_zero fuel { st with
          current := head
          currentHash := head.hash
          headBlockHash := head.hash } common st.current (some head) [] hsafe'
    have hmem : ∀ h ∈ stack, h.number = 0 → h.hash = st2.canonical 0 := by
      have hb := reorgLoop_stack_mem fuel { st with
          current := head
          currentHash := head.hash
          headBlockHash := head.hash } common (some st.current) (some head) []
        (fun h => h.number = 0 → h.hash = st.canonical 0)
        (by intro h hh; cases hh)
        (by intro h hh h0; cases hh; exact (h2 h0).symm)
        (by intro h hh h0; exact (h1 h hh h0).symm)
      have ha : (reorgLoop fuel { st with
          current := head
          currentHash := head.hash
          headBlockHash := head.hash } common (some st.current) (some head) []).2.1
          = stack := by
        rw [hres]
      intro h hh h0
      rw [hc2]
      exact hb h (ha ▸ hh) h0
    cases o
    · exact (replay_canonical_zero stack st2 hmem).trans hc2
    · exact hc2
    · exact hc2

/-- Witness for the amended C3 at concrete inputs: a safe trim of the
`hB2` branch back to genesis keeps the genesis record, and the reorg of
`stBase` to `hB2` (common header `hG`) preserves the canonical entry at
height 0 and the whole header store. -/
theorem genesis_preservation_witness :
    trimSafe 10 stBase.store 9 hG hB2 = true ∧
    hG ∈ stBase.store ∧
    hG ∈ ((trim 10 stBase hG hB2).1).store ∧
    findCommonHeader 20 stBase (some hB2) = some (some hG) ∧
    prevWalkSafe 20 stBase.store stBase.genesisHash0 hG stBase.current = true ∧
    (setCurrentHeader 20 stBase hB2).state.canonical 0 = stBase.canonical 0 ∧
    (setCurrentHeader 20 stBase hB2).state.store = stBase.store := by
  have h := genesis_preservation
  refine ⟨by decide, by decide, ?_, by decide, by decide, ?_, ?_⟩
  · exact h.2.1 10 stBase hG hB2 9 (by decide) hG (by decide) rfl
  · refine h.2.2.2 20 stBase hB2 (by decide) ?_ (by decide) (by decide)
    intro c hc
    have he : findCommonHeader 20 stBase (some hB2) = some (some hG) := by decide
    rw [he] at hc
    obtain rfl : hG = c := Option.some.inj (Option.some.inj hc)
    decide
  · exact h.2.2.1 20 stBase hB2

/-- Witness for C10 at a concrete input: `stC10`'s registry is at
capacity and its oldest entry `hE` has a missing parent, so the
common-header search for it returns nil. -/
theorem append_eviction_error_preserves_append_witness :
    stC10.heads.length = maxHeadsQueueLimit ∧
    (append 30 stC10 hC1 true true).map (·.error) = some (some .nilHead) ∧
    (append 30 stC10 hC1 true true).map
      (fun r => getHeader r.state hC1.hash hC1.number) = some (some hC1) ∧
    (append 30 stC10 hC1 true true).map (fun r => r.state.heads) = some stC10.heads := by
  have h := append_eviction_error_preserves_append 30 stC10 hC1 hE
    (by decide) rfl (by decide)
  exact ⟨by decide, h.1, h.2.1, h.2.2.2.2⟩

end Quai
